import Mathlib

/-!
Verification of the interactive raw-mode line editor of `cmdline-ai-helper`
(`ai.py`).  The core under study is `AI.run` (the editing loop, its key
decoding, the repaint writes, the terminal-attribute restore in the
`finally` block, and the hand-off to `bash -c`) together with `AI.get_char`
and `main`.

Modelling conventions:
* The character stream delivered by successive `AI.get_char` calls is a
  `List Char`; an exhausted list models end-of-input, where Python's
  `sys.stdin.read(1)` returns the empty string (so a subsequent
  `ord(char)` raises `TypeError`, while the comparison `char2 == '['`
  simply yields `False`).
* `input_text` is a `List Char`; `position` is an unbounded `Int`, as a
  Python integer is.  Python slice expressions `s[:p]` and `s[p:]` are
  embedded by `sliceTo` / `sliceFrom`, faithful also for negative `p`.
* Side effects of one `AI.run` session are recorded as a `List Eff`:
  the stdout writes of each repaint, the `print` calls, the single
  `termios.tcsetattr(fd, TCSADRAIN, old_settings)` of the session's
  `finally:` block (line 229), and the `subprocess.call` hand-off.
  The per-read attribute save/restore inside `AI.get_char` is its own,
  locally scoped pair and is not the session-level restore recorded here.
-/

set_option autoImplicit false

namespace CmdlineAiHelper

/-- Python `s[:p]` on a string `s` of length `len`: for `p ≥ 0` the first
`min p len` characters, for `p < 0` the first `max 0 (len + p)` characters. -/
def sliceTo (s : List Char) (p : Int) : List Char :=
  s.take (if p < 0 then ((s.length : Int) + p).toNat else p.toNat)

/-- Python `s[p:]`: drop the same number of characters `sliceTo` keeps. -/
def sliceFrom (s : List Char) (p : Int) : List Char :=
  s.drop (if p < 0 then ((s.length : Int) + p).toNat else p.toNat)

/-- Left-arrow branch, `ai.py` line 201: `position = max(0, position - 1)`. -/
def move_left (pos : Int) : Int := max 0 (pos - 1)

/-- Right-arrow branch, line 203: `position = min(len(input_text), position + 1)`. -/
def move_right (text : List Char) (pos : Int) : Int :=
  min (text.length : Int) (pos + 1)

/-- Delete branch, lines 210-211: if `position < len(input_text)` then
`input_text = input_text[:position] + input_text[position+1:]`; the
position is left unchanged by the branch. -/
def delete_forward (text : List Char) (pos : Int) : List Char :=
  if pos < (text.length : Int) then sliceTo text pos ++ sliceFrom text (pos + 1)
  else text

/-- Backspace branch, lines 220-222: if `position > 0` then
`input_text = input_text[:position-1] + input_text[position:]` and
`position -= 1`. -/
def backspace (text : List Char) (pos : Int) : List Char × Int :=
  if pos > 0 then (sliceTo text (pos - 1) ++ sliceFrom text pos, pos - 1)
  else (text, pos)

/-- Printable-character branch, lines 225-226:
`input_text = input_text[:position] + char + input_text[position:]` and
`position += 1`. -/
def insertChar (text : List Char) (pos : Int) (c : Char) : List Char × Int :=
  (sliceTo text pos ++ [c] ++ sliceFrom text pos, pos + 1)

/-- Lines 232-233: `if not input_text: input_text = command` — the text that
is actually handed to the executor, given the seed `command` and the text
`t` the loop ended with. -/
def finalText (command t : List Char) : List Char :=
  if t = [] then command else t

/-- The carriage return written at lines 185 and 189. -/
def crWrite : List Char := ['\r']

/-- The clear-to-end-of-line sequence `'\x1b[K'` written at line 186. -/
def clearEol : List Char := ['\x1b', '[', 'K']

/-- The cursor-forward sequence `f'\x1b[{position}C'` written at line 191. -/
def cursorFwd (pos : Int) : List Char :=
  ['\x1b', '['] ++ (toString pos).toList ++ ['C']

/-- The stdout writes of one repaint, lines 185-191, in call order:
`'\r'`, `'\x1b[K'`, `input_text`, `'\r'`, and, only when `position > 0`,
`f'\x1b[{position}C'`. -/
def repaintWrites (text : List Char) (pos : Int) : List (List Char) :=
  [crWrite, clearEol, text, crWrite] ++ (if pos > 0 then [cursorFwd pos] else [])

/-- The byte stream one repaint puts on stdout: its writes, concatenated. -/
def repaintOutput (text : List Char) (pos : Int) : List Char :=
  (repaintWrites text pos).flatten

/-- Modelled from the spec, section 4.4: `repaint` emits, in order, a
carriage return, a clear-to-end-of-line control sequence, the full current
text, a carriage return, then a cursor-forward control sequence moving
exactly `cursor` columns right, omitted if the cursor is `0`. -/
def repaintSpec (text : List Char) (pos : Int) : List Char :=
  crWrite ++ clearEol ++ text ++ crWrite ++
    (if pos > 0 then cursorFwd pos else [])

/-- The argv of line 241: `subprocess.call(['bash', '-c', input_text], ...)`. -/
def execArgv (t : List Char) : List (List Char) :=
  ["bash".toList, "-c".toList, t]

/-- Lines 236-237: `env = os.environ.copy(); env['TERM'] = 'xterm-256color'`.
An environment is a partial map from names to values; the child environment
answers `xterm-256color` for `TERM` and the parent's value elsewhere. -/
def execEnv (parent : String → Option String) : String → Option String :=
  fun k => if k = "TERM" then some "xterm-256color" else parent k

/-- How one `AI.run` session ended. -/
inductive Outcome where
  /-- Line 217: Enter broke the loop; `t` is `input_text` at that moment,
  before the empty-string substitution of lines 232-233. -/
  | enter (t : List Char)
  /-- Lines 213-214: bare Escape printed `Cancelled.` and returned `0`. -/
  | cancelled
  /-- `ord('')` raised `TypeError` at line 196 because the input stream was
  exhausted; the exception propagates out of `AI.run`. -/
  | inputError
deriving Repr, DecidableEq

/-- One observable side effect of an `AI.run` session. -/
inductive Eff where
  /-- A byte sequence put on stdout by the repaint writes. -/
  | write (s : List Char)
  /-- A `print(s)` call (`print()` is recorded as `println ""`). -/
  | println (s : String)
  /-- The `termios.tcsetattr(fd, TCSADRAIN, old_settings)` of line 229,
  restoring the attributes captured at line 181 (the session's `finally:`). -/
  | restoreSession
  /-- The `subprocess.call` of line 241 with the given argv. -/
  | exec (argv : List (List Char))
deriving Repr, DecidableEq

/-- Prefix a recursive continuation's effect list with this iteration's
repaint write. -/
def contPaint (text : List Char) (pos : Int) (r : Outcome × List Eff) :
    Outcome × List Eff :=
  (r.1, Eff.write (repaintOutput text pos) :: r.2)

/-- The editing loop of `AI.run`, lines 183-241, from the state where
`input_text = text`, `position = pos` and the not-yet-consumed input
characters are the first argument.  `seed` is the `command` variable
(needed by the empty-string substitution after the loop).  Each iteration
repaints (lines 185-192), then reads one character (line 194) and
dispatches (lines 196-226); the terminal cases append the effects of the
respective exit path, `finally:` restore included. -/
def editRun (seed : List Char) : List Char → List Char → Int → Outcome × List Eff
  | [], text, pos =>
    (Outcome.inputError, [Eff.write (repaintOutput text pos), Eff.restoreSession])
  | c :: rest, text, pos =>
    if c.toNat = 27 then
      match rest with
      | [] =>
        (Outcome.cancelled,
          [Eff.write (repaintOutput text pos), Eff.println "\nCancelled.",
            Eff.restoreSession])
      | c2 :: rest2 =>
        if c2 = '[' then
          match rest2 with
          | [] => contPaint text pos (editRun seed [] text pos)
          | c3 :: rest3 =>
            if c3 = 'D' then
              contPaint text pos (editRun seed rest3 text (move_left pos))
            else if c3 = 'C' then
              contPaint text pos (editRun seed rest3 text (move_right text pos))
            else if c3 = 'H' then
              contPaint text pos (editRun seed rest3 text 0)
            else if c3 = 'F' then
              contPaint text pos (editRun seed rest3 text (text.length : Int))
            else if c3 = '3' then
              contPaint text pos
                (editRun seed rest3.tail (delete_forward text pos) pos)
            else
              contPaint text pos (editRun seed rest3 text pos)
        else
          (Outcome.cancelled,
            [Eff.write (repaintOutput text pos), Eff.println "\nCancelled.",
              Eff.restoreSession])
    else if c.toNat = 13 then
      (Outcome.enter text,
        [Eff.write (repaintOutput text pos), Eff.restoreSession, Eff.println "",
          Eff.exec (execArgv (finalText seed text))])
    else if c.toNat = 127 ∨ c.toNat = 8 then
      contPaint text pos
        (editRun seed rest (backspace text pos).1 (backspace text pos).2)
    else if 32 ≤ c.toNat then
      contPaint text pos
        (editRun seed rest (insertChar text pos c).1 (insertChar text pos c).2)
    else
      contPaint text pos (editRun seed rest text pos)
  termination_by s _ _ => s.length
  decreasing_by
    all_goals simp [List.length_tail]
    all_goals omega

/-- A whole `AI.run` editing session: `input_text` seeded with `command`
(line 176) and `position = len(input_text)` (line 177). -/
def runSession (input command : List Char) : Outcome × List Eff :=
  editRun command input command (command.length : Int)

/-- The value `AI.run` returns to `main`, given an oracle `execCode` for
the return code of `subprocess.call`; `none` models an exception
propagating out of `AI.run`. -/
def runReturn (execCode : List Char → Int) (input command : List Char) :
    Option Int :=
  match (runSession input command).1 with
  | Outcome.enter t => some (execCode (finalText command t))
  | Outcome.cancelled => some 0
  | Outcome.inputError => none

/-- The process exit status produced by `main`, lines 246-256:
`sys.exit(ai.run(args))` on a normal return, and `sys.exit(1)` from the
`except Exception` handler when `AI.run` raised. -/
def mainExit (execCode : List Char → Int) (input command : List Char) : Int :=
  match runReturn execCode input command with
  | some v => v
  | none => 1

/-- The text handed to `subprocess.call` by the session, if any. -/
def executedText (input command : List Char) : Option (List Char) :=
  match (runSession input command).1 with
  | Outcome.enter t => some (finalText command t)
  | _ => none

/-- Whether an effect is the session-level attribute restore of line 229. -/
def isRestore : Eff → Bool
  | Eff.restoreSession => true
  | _ => false

/-- How many times the session-level restore of line 229 happens. -/
def countRestores (l : List Eff) : Nat := l.countP isRestore

/-- The `(input_text, position)` pair at the top of each iteration of the
loop of `AI.run` (equivalently: the state after each applied operation,
the seeded initial state included), for a given input character stream. -/
def stateTrace : List Char → List Char → Int → List (List Char × Int)
  | [], text, pos => [(text, pos)]
  | c :: rest, text, pos =>
    (text, pos) ::
    (if c.toNat = 27 then
      match rest with
      | [] => []
      | c2 :: rest2 =>
        if c2 = '[' then
          match rest2 with
          | [] => stateTrace [] text pos
          | c3 :: rest3 =>
            if c3 = 'D' then stateTrace rest3 text (move_left pos)
            else if c3 = 'C' then stateTrace rest3 text (move_right text pos)
            else if c3 = 'H' then stateTrace rest3 text 0
            else if c3 = 'F' then stateTrace rest3 text (text.length : Int)
            else if c3 = '3' then
              stateTrace rest3.tail (delete_forward text pos) pos
            else stateTrace rest3 text pos
        else []
    else if c.toNat = 13 then []
    else if c.toNat = 127 ∨ c.toNat = 8 then
      stateTrace rest (backspace text pos).1 (backspace text pos).2
    else if 32 ≤ c.toNat then
      stateTrace rest (insertChar text pos c).1 (insertChar text pos c).2
    else stateTrace rest text pos)
  termination_by s _ _ => s.length
  decreasing_by
    all_goals simp [List.length_tail]
    all_goals omega

/-- The cursor invariant of the edit state. -/
def cursorInv (s : List Char × Int) : Prop :=
  0 ≤ s.2 ∧ s.2 ≤ (s.1.length : Int)

/-! ### Lemmas about the buffer operations -/

lemma sliceTo_of_nonneg (s : List Char) {p : Int} (h : 0 ≤ p) :
    sliceTo s p = s.take p.toNat := by
  simp [sliceTo, not_lt.mpr h]

lemma sliceFrom_of_nonneg (s : List Char) {p : Int} (h : 0 ≤ p) :
    sliceFrom s p = s.drop p.toNat := by
  simp [sliceFrom, not_lt.mpr h]

lemma insertChar_inv {text : List Char} {pos : Int} (c : Char)
    (h : cursorInv (text, pos)) : cursorInv (insertChar text pos c) := by
  obtain ⟨h0, h1⟩ := h
  simp only [cursorInv, insertChar, sliceTo_of_nonneg _ h0,
    sliceFrom_of_nonneg _ h0, List.length_append, List.length_take,
    List.length_drop, List.length_cons, List.length_nil] at *
  omega

lemma backspace_inv {text : List Char} {pos : Int}
    (h : cursorInv (text, pos)) : cursorInv (backspace text pos) := by
  obtain ⟨h0, h1⟩ := h
  by_cases hp : pos > 0
  · have h0' : (0 : Int) ≤ pos - 1 := by omega
    simp only [cursorInv, backspace, if_pos hp, sliceTo_of_nonneg _ h0',
      sliceFrom_of_nonneg _ h0, List.length_append, List.length_take,
      List.length_drop] at *
    omega
  · simp only [cursorInv, backspace, if_neg hp]
    exact ⟨h0, h1⟩

lemma delete_forward_inv {text : List Char} {pos : Int}
    (h : cursorInv (text, pos)) : cursorInv (delete_forward text pos, pos) := by
  obtain ⟨h0, h1⟩ := h
  by_cases hp : pos < (text.length : Int)
  · have h0' : (0 : Int) ≤ pos + 1 := by omega
    simp only [cursorInv, delete_forward, if_pos hp, sliceTo_of_nonneg _ h0,
      sliceFrom_of_nonneg _ h0', List.length_append, List.length_take,
      List.length_drop] at *
    omega
  · simp only [cursorInv, delete_forward, if_neg hp]
    exact ⟨h0, h1⟩

lemma move_left_inv {text : List Char} {pos : Int}
    (h : cursorInv (text, pos)) : cursorInv (text, move_left pos) := by
  obtain ⟨h0, h1⟩ := h
  simp only [cursorInv, move_left] at *
  omega

lemma move_right_inv {text : List Char} {pos : Int}
    (h : cursorInv (text, pos)) : cursorInv (text, move_right text pos) := by
  obtain ⟨h0, h1⟩ := h
  simp only [cursorInv, move_right] at *
  omega

lemma home_inv (text : List Char) : cursorInv (text, 0) := by
  simp [cursorInv]

lemma end_inv (text : List Char) : cursorInv (text, (text.length : Int)) := by
  simp [cursorInv]

/-! ### Lemmas about the loop -/

lemma countRestores_write (s : List Char) (l : List Eff) :
    countRestores (Eff.write s :: l) = countRestores l := by
  simp [countRestores, isRestore, List.countP_cons]

/-- Every exit path of the loop passes through the `finally:` of line 229
exactly once. -/
lemma editRun_restores (seed : List Char) :
    ∀ (stream text : List Char) (pos : Int),
      countRestores (editRun seed stream text pos).2 = 1 := by
  intro stream text pos
  induction stream, text, pos using editRun.induct seed with
  | case1 text pos =>
    simp [editRun, countRestores, isRestore, List.countP_cons]
  | case2 c text pos h27 =>
    simp [editRun, h27, countRestores, isRestore, List.countP_cons]
  | case3 c text pos h27 ih =>
    rw [editRun.eq_def]
    simp [h27, contPaint, editRun, countRestores, isRestore, List.countP_cons]
  | case4 c text pos h27 rest3 ih =>
    rw [editRun.eq_def]
    simp [h27, contPaint]
    rw [countRestores_write]; exact ih
  | case5 c text pos h27 rest3 hC ih =>
    rw [editRun.eq_def]
    simp [h27, contPaint]
    rw [countRestores_write]; exact ih
  | case6 c text pos h27 rest3 _ _ ih =>
    rw [editRun.eq_def]
    simp [h27, contPaint]
    rw [countRestores_write]; exact ih
  | case7 c text pos h27 rest3 _ _ _ ih =>
    rw [editRun.eq_def]
    simp [h27, contPaint]
    rw [countRestores_write]; exact ih
  | case8 c text pos h27 rest3 _ _ _ _ ih =>
    rw [editRun.eq_def]
    simp [h27, contPaint]
    rw [countRestores_write]; exact ih
  | case9 c text pos h27 c3 rest3 hD hC hH hF h3 ih =>
    rw [editRun.eq_def]
    simp [h27, hD, hC, hH, hF, h3, contPaint]
    rw [countRestores_write]; exact ih
  | case10 c text pos h27 c3 rest3 hbr =>
    rw [editRun.eq_def]
    simp [h27, hbr, countRestores, isRestore, List.countP_cons]
  | case11 c rest text pos h27 h13 =>
    rw [editRun.eq_def]
    simp [h27, h13, countRestores, isRestore, List.countP_cons]
  | case12 c rest text pos h27 h13 hbs ih =>
    rw [editRun.eq_def]
    simp [h27, h13, hbs, contPaint]
    rw [countRestores_write]; exact ih
  | case13 c rest text pos h27 h13 hbs h32 ih =>
    rw [editRun.eq_def]
    simp [h27, h13, hbs, h32, contPaint]
    rw [countRestores_write]; exact ih
  | case14 c rest text pos h27 h13 hbs h32 ih =>
    rw [editRun.eq_def]
    simp [h27, h13, hbs, h32, contPaint]
    rw [countRestores_write]; exact ih

/-- On the reachable domain `0 ≤ pos`, the Delete branch removes exactly
the character at index `pos` when `pos < length`, else does nothing. -/
lemma delete_forward_eq_eraseIdx {text : List Char} {pos : Int} (h0 : 0 ≤ pos) :
    delete_forward text pos =
      if pos < (text.length : Int) then text.eraseIdx pos.toNat else text := by
  by_cases hp : pos < (text.length : Int)
  · have h1 : (0 : Int) ≤ pos + 1 := by omega
    have h2 : (pos + 1).toNat = pos.toNat + 1 := by omega
    rw [delete_forward, if_pos hp, if_pos hp, sliceTo_of_nonneg _ h0,
      sliceFrom_of_nonneg _ h1, h2, List.eraseIdx_eq_take_drop_succ]
  · rw [delete_forward, if_neg hp, if_neg hp]

/-- If the loop ends with `Enter` on text `t`, the session's effects
contain the `subprocess.call` of `bash -c` on `finalText seed t`. -/
lemma editRun_enter_exec (seed : List Char) :
    ∀ (stream text : List Char) (pos : Int) (t : List Char),
      (editRun seed stream text pos).1 = Outcome.enter t →
        Eff.exec (execArgv (finalText seed t)) ∈ (editRun seed stream text pos).2 := by
  intro stream text pos
  induction stream, text, pos using editRun.induct seed with
  | case1 text pos => intro t ht; simp [editRun] at ht
  | case2 c text pos h27 => intro t ht; simp [editRun, h27] at ht
  | case3 c text pos h27 ih =>
    intro t ht
    rw [editRun.eq_def] at ht ⊢
    simp [h27, contPaint, editRun] at ht
  | case4 c text pos h27 rest3 ih =>
    intro t ht
    rw [editRun.eq_def] at ht ⊢
    simp only [h27, contPaint, reduceIte] at ht ⊢
    simp at ht ⊢
    exact ih t ht
  | case5 c text pos h27 rest3 hC ih =>
    intro t ht
    rw [editRun.eq_def] at ht ⊢
    simp [h27, contPaint] at ht ⊢
    exact ih t ht
  | case6 c text pos h27 rest3 _ _ ih =>
    intro t ht
    rw [editRun.eq_def] at ht ⊢
    simp [h27, contPaint] at ht ⊢
    exact ih t ht
  | case7 c text pos h27 rest3 _ _ _ ih =>
    intro t ht
    rw [editRun.eq_def] at ht ⊢
    simp [h27, contPaint] at ht ⊢
    exact ih t ht
  | case8 c text pos h27 rest3 _ _ _ _ ih =>
    intro t ht
    rw [editRun.eq_def] at ht ⊢
    simp [h27, contPaint] at ht ⊢
    exact ih t ht
  | case9 c text pos h27 c3 rest3 hD hC hH hF h3 ih =>
    intro t ht
    rw [editRun.eq_def] at ht ⊢
    simp [h27, hD, hC, hH, hF, h3, contPaint] at ht ⊢
    exact ih t ht
  | case10 c text pos h27 c3 rest3 hbr =>
    intro t ht
    rw [editRun.eq_def] at ht
    simp [h27, hbr] at ht
  | case11 c rest text pos h27 h13 =>
    intro t ht
    rw [editRun.eq_def] at ht ⊢
    simp [h27, h13] at ht ⊢
    subst ht
    simp
  | case12 c rest text pos h27 h13 hbs ih =>
    intro t ht
    rw [editRun.eq_def] at ht ⊢
    simp [h27, h13, hbs, contPaint] at ht ⊢
    exact ih t ht
  | case13 c rest text pos h27 h13 hbs h32 ih =>
    intro t ht
    rw [editRun.eq_def] at ht ⊢
    simp [h27, h13, hbs, h32, contPaint] at ht ⊢
    exact ih t ht
  | case14 c rest text pos h27 h13 hbs h32 ih =>
    intro t ht
    rw [editRun.eq_def] at ht ⊢
    simp [h27, h13, hbs, h32, contPaint] at ht ⊢
    exact ih t ht

/-- Every state the loop visits satisfies the cursor invariant, provided
the starting state does. -/
lemma stateTrace_inv :
    ∀ (stream text : List Char) (pos : Int), cursorInv (text, pos) →
      ∀ s ∈ stateTrace stream text pos, cursorInv s := by
  intro stream text pos
  induction stream, text, pos using stateTrace.induct with
  | case1 text pos =>
    intro hinv s hs
    rw [stateTrace.eq_def] at hs
    simp at hs
    subst hs
    exact hinv
  | case2 c rest text pos hmatch ihbs ihins ihskip =>
    intro hinv s hs
    rw [stateTrace.eq_def] at hs
    simp only [List.mem_cons] at hs
    rcases hs with rfl | hs
    · exact hinv
    · by_cases h27 : c.toNat = 27
      · simp only [h27, reduceIte] at hs
        match rest, hmatch with
        | [], _ => simp at hs
        | c2 :: rest2, hmatch =>
          by_cases hbr : c2 = '['
          · simp only [hbr, reduceIte] at hs
            match rest2, hmatch with
            | [], hm =>
              exact hm hinv s hs
            | c3 :: rest3, hm =>
              obtain ⟨ihD, ihC, ihH, ihF, ihDel, ihOther⟩ := hm
              by_cases hD : c3 = 'D'
              · simp only [hD, reduceIte] at hs
                exact ihD (move_left_inv hinv) s hs
              · by_cases hC : c3 = 'C'
                · simp only [hD, hC, reduceIte] at hs
                  exact ihC (move_right_inv hinv) s hs
                · by_cases hH : c3 = 'H'
                  · simp only [hD, hC, hH, reduceIte] at hs
                    exact ihH (home_inv text) s hs
                  · by_cases hF : c3 = 'F'
                    · simp only [hD, hC, hH, hF, reduceIte] at hs
                      exact ihF (end_inv text) s hs
                    · by_cases h3 : c3 = '3'
                      · simp only [hD, hC, hH, hF, h3, reduceIte] at hs
                        exact ihDel (delete_forward_inv hinv) s hs
                      · simp only [hD, hC, hH, hF, h3, reduceIte] at hs
                        exact ihOther hinv s hs
          · simp only [hbr, reduceIte] at hs
            simp at hs
      · by_cases h13 : c.toNat = 13
        · simp only [h27, h13, reduceIte] at hs
          simp at hs
        · by_cases hbs : c.toNat = 127 ∨ c.toNat = 8
          · simp only [h27, h13, hbs, reduceIte] at hs
            exact ihbs (backspace_inv hinv) s hs
          · by_cases h32 : 32 ≤ c.toNat
            · simp only [h27, h13, hbs, h32, reduceIte] at hs
              exact ihins (insertChar_inv c hinv) s hs
            · simp only [h27, h13, hbs, h32, reduceIte] at hs
              exact ihskip hinv s hs

/-! ### The claims -/

/-- C1: for every sequence of key events applied by the editor loop of
`AI.run` (insert, backspace, delete-forward, cursor moves), starting from
any seed text with the cursor initialized to the end of the text, the
invariant `0 <= cursor <= length text` holds after every operation, i.e.
at every state the loop visits. -/
theorem C1_cursor_invariant (input command : List Char) (s : List Char × Int)
    (hs : s ∈ stateTrace input command (command.length : Int)) :
    0 ≤ s.2 ∧ s.2 ≤ (s.1.length : Int) :=
  stateTrace_inv input command (command.length : Int) (end_inv command) s hs

/-- Witness for C1 at a concrete session: seed `"ls"`, one printable key. -/
theorem C1_cursor_invariant_witness :
    0 ≤ ((['l', 's', 'a'], (3 : Int)) : List Char × Int).2 ∧
      ((['l', 's', 'a'], (3 : Int)) : List Char × Int).2 ≤
        (((['l', 's', 'a'], (3 : Int)) : List Char × Int).1.length : Int) :=
  C1_cursor_invariant ['a'] ['l', 's'] (['l', 's', 'a'], (3 : Int))
    (by simp [stateTrace, insertChar, sliceTo, sliceFrom])

/-- C2: the prior terminal attributes captured at line 181 are restored by
the `finally:` of line 229 exactly once in every editing session, whether
the loop exits via Enter, bare Escape, or the end-of-input decoder
failure. -/
theorem C2_restore_exactly_once (input command : List Char) :
    countRestores (runSession input command).2 = 1 :=
  editRun_restores command input command (command.length : Int)

/-- C3 counterexample: with seed `"ls"` and the input stream already at
end-of-stream, the session does not end `Cancelled` - `ord('')` raises and
the exception reaches `main`, which exits with status 1, while a
cancelled session exits with status 0. -/
theorem C3_counterexample :
    (runSession [] ['l', 's']).1 = Outcome.inputError ∧
      (runSession [] ['l', 's']).1 ≠ Outcome.cancelled ∧
      mainExit (fun _ => 0) [] ['l', 's'] = 1 := by
  refine ⟨?_, ?_, ?_⟩ <;>
    simp [runSession, editRun, mainExit, runReturn]

/-- C3 (amended): end-of-stream while awaiting the byte after an Escape is
treated as `Cancel`; but end-of-stream while awaiting the first byte of an
event makes `ord('')` raise `TypeError`, which propagates out of `AI.run`:
no command is executed and the terminal attributes are still restored
exactly once, and `main` catches the exception and exits with status 1
instead of ending the session as `Cancelled`. -/
theorem C3_input_closed_amended (execCode : List Char → Int)
    (text command : List Char) (pos : Int) (a : List (List Char)) :
    (editRun command [] text pos).1 = Outcome.inputError ∧
      Eff.exec a ∉ (editRun command [] text pos).2 ∧
      countRestores (editRun command [] text pos).2 = 1 ∧
      mainExit execCode [] command = 1 ∧
      (editRun command ['\x1b'] text pos).1 = Outcome.cancelled := by
  refine ⟨by simp [editRun], by simp [editRun], ?_, ?_, by simp [editRun]⟩
  · simp [editRun, countRestores, isRestore, List.countP_cons]
  · simp [mainExit, runReturn, runSession, editRun]

/-- C4: when the loop ends via Enter with loop text `t`, the command handed
to the caller (and to `bash -c`) is the original seed when `t` is empty,
and `t` itself otherwise. -/
theorem C4_empty_confirm_yields_seed (input command t : List Char)
    (h : (runSession input command).1 = Outcome.enter t) :
    executedText input command = some (if t = [] then command else t) ∧
      Eff.exec ["bash".toList, "-c".toList, if t = [] then command else t] ∈
        (runSession input command).2 := by
  constructor
  · simp [executedText, h, finalText]
  · have hm := editRun_enter_exec command input command (command.length : Int) t h
    simpa [execArgv, finalText] using hm

/-- Witness for C4: seed `"ab"` fully erased by two backspaces, then Enter;
the seed text is what reaches `bash`. -/
theorem C4_empty_confirm_yields_seed_witness :
    executedText ['\x7f', '\x7f', '\r'] ['a', 'b'] =
        some (if ([] : List Char) = [] then ['a', 'b'] else []) ∧
      Eff.exec ["bash".toList, "-c".toList,
          if ([] : List Char) = [] then ['a', 'b'] else []] ∈
        (runSession ['\x7f', '\x7f', '\r'] ['a', 'b']).2 :=
  C4_empty_confirm_yields_seed ['\x7f', '\x7f', '\r'] ['a', 'b'] []
    (by simp [runSession, editRun, backspace, sliceTo, sliceFrom, contPaint])

/-- C5: at any point of a session (any buffer state), an Escape byte whose
following byte is not `'['` terminates the loop as `Cancelled`: the only
remaining effects are the repaint, the cancellation notice and the
attribute restore - in particular no `subprocess.call` happens and the
seed text is never handed to the caller. -/
theorem C5_bare_escape_cancels (seed text : List Char) (pos : Int)
    (c : Char) (rest : List Char) (a : List (List Char)) (hc : c ≠ '[') :
    editRun seed ('\x1b' :: c :: rest) text pos =
        (Outcome.cancelled,
          [Eff.write (repaintOutput text pos), Eff.println "\nCancelled.",
            Eff.restoreSession]) ∧
      Eff.exec a ∉ (editRun seed ('\x1b' :: c :: rest) text pos).2 := by
  have h : editRun seed ('\x1b' :: c :: rest) text pos =
      (Outcome.cancelled,
        [Eff.write (repaintOutput text pos), Eff.println "\nCancelled.",
          Eff.restoreSession]) := by
    rw [editRun.eq_def]
    simp [hc]
  refine ⟨h, ?_⟩
  rw [h]
  simp

/-- Witness for C5 at a concrete state: text `"ab"`, cursor 1, Escape then
`'x'`. -/
theorem C5_bare_escape_cancels_witness :
    editRun [] ('\x1b' :: 'x' :: []) ['a', 'b'] 1 =
        (Outcome.cancelled,
          [Eff.write (repaintOutput ['a', 'b'] 1), Eff.println "\nCancelled.",
            Eff.restoreSession]) ∧
      Eff.exec [] ∉ (editRun [] ('\x1b' :: 'x' :: []) ['a', 'b'] 1).2 :=
  C5_bare_escape_cancels [] ['a', 'b'] 1 'x' [] [] (by decide)

/-- C6: the four-byte sequence `ESC [ 3 ~` is consumed as exactly one
Delete event: the loop performs exactly one repaint and one buffer
operation and continues after the fourth byte with text
`delete_forward text pos` and the cursor unchanged; `delete_forward`
removes the character at the cursor when `cursor < length text` and does
nothing otherwise. -/
theorem C6_delete_sequence (seed rest text : List Char) (pos : Int)
    (h0 : 0 ≤ pos) :
    editRun seed ('\x1b' :: '[' :: '3' :: '~' :: rest) text pos =
        contPaint text pos (editRun seed rest (delete_forward text pos) pos) ∧
      delete_forward text pos =
        (if pos < (text.length : Int) then text.eraseIdx pos.toNat else text) := by
  constructor
  · rw [editRun.eq_def]
    simp
  · exact delete_forward_eq_eraseIdx h0

/-- Witness for C6: deleting at cursor 0 of `"ab"`. -/
theorem C6_delete_sequence_witness :
    editRun [] ('\x1b' :: '[' :: '3' :: '~' :: []) ['a', 'b'] 0 =
        contPaint ['a', 'b'] 0 (editRun [] [] (delete_forward ['a', 'b'] 0) 0) ∧
      delete_forward ['a', 'b'] 0 =
        (if (0 : Int) < (([ 'a', 'b'] : List Char).length : Int) then
          (['a', 'b'] : List Char).eraseIdx (0 : Int).toNat else ['a', 'b']) :=
  C6_delete_sequence [] [] ['a', 'b'] 0 (by decide)

/-- C7: each repaint emits, in this exact order, a carriage return, the
clear-to-end-of-line sequence `ESC [ K`, the full current text, a carriage
return, and, only when the cursor is positive, the cursor-forward sequence
`ESC [ cursor C`; at cursor 0 the forward sequence is omitted. -/
theorem C7_repaint_exact_order (text : List Char) (pos : Int) :
    repaintOutput text pos = repaintSpec text pos ∧
      repaintOutput text 0 = crWrite ++ clearEol ++ text ++ crWrite := by
  constructor
  · by_cases hp : pos > 0 <;>
      simp [repaintOutput, repaintWrites, repaintSpec, hp]
  · simp [repaintOutput, repaintWrites]

/-- C8: unrecognized input is ignored with no state change: a third byte
after `ESC [` outside `D C H F 3` and a first byte below 32 other than
13, 8 and 27 both leave text and cursor untouched and let the loop
continue in the editing state. -/
theorem C8_unrecognized_ignored (seed text : List Char) (pos : Int)
    (c3 c : Char) (rest : List Char)
    (h3 : c3 ∉ (['D', 'C', 'H', 'F', '3'] : List Char))
    (hlt : c.toNat < 32) (h13 : c.toNat ≠ 13) (h8 : c.toNat ≠ 8)
    (h27 : c.toNat ≠ 27) :
    editRun seed ('\x1b' :: '[' :: c3 :: rest) text pos =
        contPaint text pos (editRun seed rest text pos) ∧
      editRun seed (c :: rest) text pos =
        contPaint text pos (editRun seed rest text pos) := by
  simp only [List.mem_cons, List.not_mem_nil, or_false, not_or] at h3
  obtain ⟨hD, hC, hH, hF, hthree⟩ := h3
  have hbs : ¬(c.toNat = 127 ∨ c.toNat = 8) := by omega
  have h32 : ¬32 ≤ c.toNat := by omega
  constructor
  · rw [editRun.eq_def]
    simp [hD, hC, hH, hF, hthree]
  · rw [editRun.eq_def]
    simp [h27, h13, hbs, h32]

/-- Witness for C8: third byte `'~'`, control byte `'\x07'` (BEL). -/
theorem C8_unrecognized_ignored_witness :
    editRun [] ('\x1b' :: '[' :: '~' :: []) ['a'] 1 =
        contPaint ['a'] 1 (editRun [] [] ['a'] 1) ∧
      editRun [] ('\x07' :: []) ['a'] 1 =
        contPaint ['a'] 1 (editRun [] [] ['a'] 1) :=
  C8_unrecognized_ignored [] ['a'] 1 '~' '\x07' [] (by decide) (by decide)
    (by decide) (by decide) (by decide)

/-- C9: a session ending via bare Escape makes `AI.run` return `0`, so the
process exits with status 0 - by exit status alone this is
indistinguishable from a confirmed session whose command exited with 0. -/
theorem C9_cancel_exit_status (execCode : List Char → Int)
    (input input2 command t : List Char)
    (hc : (runSession input command).1 = Outcome.cancelled)
    (he : (runSession input2 command).1 = Outcome.enter t)
    (h0 : execCode (finalText command t) = 0) :
    mainExit execCode input command = 0 ∧
      mainExit execCode input2 command = 0 := by
  constructor
  · simp [mainExit, runReturn, hc]
  · simp [mainExit, runReturn, he, h0]

/-- Witness for C9: cancel via `ESC x`, confirm via Enter, command whose
exit code is 0. -/
theorem C9_cancel_exit_status_witness :
    mainExit (fun _ => 0) ['\x1b', 'x'] ['l', 's'] = 0 ∧
      mainExit (fun _ => 0) ['\r'] ['l', 's'] = 0 :=
  C9_cancel_exit_status (fun _ => 0) ['\x1b', 'x'] ['\r'] ['l', 's'] ['l', 's']
    (by simp [runSession, editRun]) (by simp [runSession, editRun]) rfl

/-- C10: every confirmed final text is executed by calling `bash` with
arguments `-c` and the final text, under the parent environment with
`TERM` set to `xterm-256color` and every other variable passed through
unchanged. -/
theorem C10_exec_bash_env (input command t : List Char)
    (parent : String → Option String) (k : String)
    (h : (runSession input command).1 = Outcome.enter t) (hk : k ≠ "TERM") :
    Eff.exec (execArgv (finalText command t)) ∈ (runSession input command).2 ∧
      execArgv (finalText command t) =
        ["bash".toList, "-c".toList, finalText command t] ∧
      execEnv parent "TERM" = some "xterm-256color" ∧
      execEnv parent k = parent k := by
  refine ⟨editRun_enter_exec command input command (command.length : Int) t h,
    rfl, by simp [execEnv], ?_⟩
  simp [execEnv, hk]

/-- Witness for C10: Enter immediately, parent environment empty, variable
`PATH`. -/
theorem C10_exec_bash_env_witness :
    Eff.exec (execArgv (finalText ['l', 's'] ['l', 's'])) ∈
        (runSession ['\r'] ['l', 's']).2 ∧
      execArgv (finalText ['l', 's'] ['l', 's']) =
        ["bash".toList, "-c".toList, finalText ['l', 's'] ['l', 's']] ∧
      execEnv (fun _ => none) "TERM" = some "xterm-256color" ∧
      execEnv (fun _ => none) "PATH" = (fun _ => (none : Option String)) "PATH" :=
  C10_exec_bash_env ['\r'] ['l', 's'] ['l', 's'] (fun _ => none) "PATH"
    (by simp [runSession, editRun]) (by decide)

end CmdlineAiHelper
